import Mathlib

/-!
Network containers of the VIC port layer.

A shallow embedding of `lib/portlayer/network/container.go`.

* A Go pointer is modelled by a value whose equality is pointer equality.
* A Go slice is modelled by the list of its `len` visible cells.
* Every method of `Container` takes the container's mutex on entry and
  releases it on return; the embedding is sequential, so a method is a
  function from the state before the call to the result and the state after.
-/

namespace Vic.Network

/-- The type `exec.ID`, a string. -/
abbrev ID := String

/-- A value of type `*Scope`. Two scopes are the same scope iff they are the
same pointer, so a scope is modelled by its address. -/
structure Scope where
  addr : Nat
deriving DecidableEq, Repr

/-- The nil `*Scope`, the value `make([]*Scope, n)` fills its cells with. -/
def Scope.null : Scope := ⟨0⟩

/-- A non-nil value of type `*Endpoint`: the address of the endpoint together
with the two fields the container reads, its scope and its `pciSlot`
(an `int32`, only ever compared with `0` and used as a map key). -/
structure Endpoint where
  addr : Nat
  scope : Scope
  pciSlot : Int
deriving DecidableEq, Repr

/-- The method `(*Endpoint).Scope()`. -/
def Endpoint.Scope (e : Endpoint) : Vic.Network.Scope := e.scope

/-- The non-nil values of Go's `error` that the container can hand back:
the package's `ResourceNotFoundError{}` or whatever an endpoint reported. -/
inductive Err where
  | ResourceNotFoundError
  | other (tag : Nat)
deriving DecidableEq, Repr

/-- Go's `error` interface: `none` is `nil`. -/
abbrev error := Option Err

/-- One delegated call made by the container to an endpoint. -/
inductive Call where
  | bind (e : Endpoint) (s : Scope)
  | unbind (e : Endpoint) (s : Scope)
deriving DecidableEq, Repr

/-- The methods `(*Endpoint).bind` and `(*Endpoint).unbind` live outside this
file of the package, so they are a parameter: given the delegated calls made
so far (which determine the bound state of every endpoint), the endpoint and
the scope, each yields the error it reports. -/
structure EndpointOps where
  bind : List Call → Endpoint → Scope → error
  unbind : List Call → Endpoint → Scope → error

/-- The struct `Container`, without its mutex. -/
structure Container where
  id : ID
  endpoints : List Endpoint
deriving DecidableEq, Repr

/-- The literal `&Container{id: id}`: a container with no endpoints. -/
def Container.fresh (id : ID) : Container := ⟨id, []⟩

/-- The builtin `make([]*Endpoint, n)`: `n` nil pointers. -/
def makeEndpoints (n : Nat) : List (Option Endpoint) := List.replicate n none

/-- The builtin `copy(dst, src)`: overwrites the first
`min(len(dst), len(src))` cells of `dst`. -/
def copy (dst : List (Option Endpoint)) (src : List Endpoint) : List (Option Endpoint) :=
  (src.take dst.length).map some ++ dst.drop src.length

/-- The method `Container.Endpoints`. -/
def Container.Endpoints (c : Container) : List (Option Endpoint) × Container :=
  let ret := makeEndpoints c.endpoints.length
  let ret := copy ret c.endpoints
  (ret, c)

/-- The method `Container.ID`. -/
def Container.ID (c : Container) : ID × Container := (c.id, c)

/-- The loop of `Container.endpoint`: the first endpoint of the slice whose
scope is `s`, or nil. -/
def endpointLoop (s : Scope) : List Endpoint → Option Endpoint
  | [] => none
  | e :: rest => if e.Scope = s then some e else endpointLoop s rest

/-- The method `Container.endpoint` (no lock taken). -/
def Container.endpoint (c : Container) (s : Scope) : Option Endpoint :=
  endpointLoop s c.endpoints

/-- The method `Container.Endpoint`. -/
def Container.Endpoint (c : Container) (s : Scope) : Option Endpoint × Container :=
  (c.endpoint s, c)

/-- The builtin `make([]*Scope, n)`: `n` nil pointers. -/
def makeScopes (n : Nat) : List Scope := List.replicate n Scope.null

/-- The loop of `Container.Scopes`: `scopes[i] = e.Scope(); i++` for each
endpoint in turn. -/
def scopesLoop : List Endpoint → List Scope × Nat → List Scope × Nat
  | [], acc => acc
  | e :: rest, (scopes, i) => scopesLoop rest (scopes.set i e.Scope, i + 1)

/-- The method `Container.Scopes`. -/
def Container.Scopes (c : Container) : List Scope × Container :=
  let scopes := makeScopes c.endpoints.length
  ((scopesLoop c.endpoints (scopes, 0)).1, c)

/-- The method `Container.addEndpoint`. -/
def Container.addEndpoint (c : Container) (e : Vic.Network.Endpoint) : Container :=
  { c with endpoints := c.endpoints ++ [e] }

/-- What a call of `removeEndpointHelper(e, endpoints)` leaves behind: the
slice it returns, and the contents of the `len(endpoints)` cells of the
argument slice after the call (a callee is passed a copy of the slice header,
so it cannot change the length its caller sees). -/
structure HelperOutcome where
  ret : List Endpoint
  cells : List Endpoint
deriving DecidableEq, Repr

/-- Modelled from the spec: `removeEndpointHelper` is called by
`removeEndpoint` and defined in another file of the package. The spec says of
the removal "removes exact reference from the collection" and "no error if
absent - idempotent". The model returns the collection without the first cell
that holds the reference `e`, and the collection itself when `e` is absent;
the spec names no other effect, so the cells of the argument are left as they
were. -/
def removeEndpointHelper (e : Endpoint) : List Endpoint → HelperOutcome
  | [] => ⟨[], []⟩
  | e2 :: rest =>
    if e2 ≠ e then
      let r := removeEndpointHelper e rest
      ⟨e2 :: r.ret, e2 :: r.cells⟩
    else
      ⟨rest, e2 :: rest⟩

/-- The method `Container.removeEndpoint`: the statement is the bare call
`removeEndpointHelper(e, c.endpoints)`; nothing is assigned to `c.endpoints`,
so the container keeps its slice header and sees the cells as the callee left
them. -/
def Container.removeEndpoint (c : Container) (e : Vic.Network.Endpoint) : Container :=
  let r := removeEndpointHelper e c.endpoints
  { c with endpoints := r.cells }

/-- A Go `map[int32]bool`: its entries, each key at most once. -/
structure SlotMap where
  entries : List (Int × Bool)
deriving DecidableEq, Repr

/-- The builtin `make(map[int32]bool)`. -/
def SlotMap.make : SlotMap := ⟨[]⟩

/-- Assignment to the key `k` in a list of entries. -/
def setEntry (k : Int) (v : Bool) : List (Int × Bool) → List (Int × Bool)
  | [] => [(k, v)]
  | (k2, v2) :: rest => if k2 = k then (k, v) :: rest else (k2, v2) :: setEntry k v rest

/-- The assignment `m[k] = v`. -/
def SlotMap.set (m : SlotMap) (k : Int) (v : Bool) : SlotMap := ⟨setEntry k v m.entries⟩

/-- The keys of a map. -/
def SlotMap.keys (m : SlotMap) : List Int := m.entries.map Prod.fst

/-- The lookup `m[k]` in comma-ok form. -/
def SlotMap.get? (m : SlotMap) (k : Int) : Option Bool :=
  (m.entries.find? (fun kv => kv.1 == k)).map Prod.snd

/-- The loop of `Container.collectSlotNumbers`. -/
def slotsLoop : List Endpoint → SlotMap → SlotMap
  | [], slots => slots
  | e :: rest, slots =>
    if e.pciSlot > 0 then slotsLoop rest (slots.set e.pciSlot true) else slotsLoop rest slots

/-- The method `Container.collectSlotNumbers`. -/
def Container.collectSlotNumbers (c : Container) : SlotMap × Container :=
  (slotsLoop c.endpoints SlotMap.make, c)

/-- The state a `bind` or `unbind` runs in: the container and the delegated
endpoint calls made so far, oldest first. -/
structure World where
  c : Container
  calls : List Call
deriving DecidableEq, Repr

/-- The method `Container.bind`. -/
def Container.bind (ops : EndpointOps) (w : World) (s : Scope) : error × World :=
  match w.c.endpoint s with
  | none => (some Err.ResourceNotFoundError, w)
  | some e => (ops.bind w.calls e s, { w with calls := w.calls ++ [Call.bind e s] })

/-- The method `Container.unbind`. -/
def Container.unbind (ops : EndpointOps) (w : World) (s : Scope) : error × World :=
  match w.c.endpoint s with
  | none => (some Err.ResourceNotFoundError, w)
  | some e => (ops.unbind w.calls e s, { w with calls := w.calls ++ [Call.unbind e s] })

/-- A mutating call on a container. -/
inductive Op where
  | addEndpoint (e : Endpoint)
  | removeEndpoint (e : Endpoint)
deriving DecidableEq, Repr

/-- The container after one mutating call. -/
def Container.step (c : Container) : Op → Container
  | Op.addEndpoint e => c.addEndpoint e
  | Op.removeEndpoint e => c.removeEndpoint e

/-- The container after a sequence of mutating calls, made in order. -/
def Container.run (c : Container) : List Op → Container
  | [] => c
  | op :: rest => (c.step op).run rest

/-- The number of `addEndpoint` calls in a sequence. -/
def addCalls : List Op → Nat
  | [] => 0
  | Op.addEndpoint _ :: rest => addCalls rest + 1
  | Op.removeEndpoint _ :: rest => addCalls rest

/-- The number of `removeEndpoint` calls in a sequence, started on `c`, whose
argument occurs in the collection at the time of the call. -/
def presentRemoveCalls (c : Container) : List Op → Nat
  | [] => 0
  | Op.addEndpoint e :: rest => presentRemoveCalls (c.step (Op.addEndpoint e)) rest
  | Op.removeEndpoint e :: rest =>
    (if e ∈ c.endpoints then 1 else 0) + presentRemoveCalls (c.step (Op.removeEndpoint e)) rest

/-- The endpoints handed to `addEndpoint` in a sequence, in call order. -/
def addedEndpoints : List Op → List Endpoint
  | [] => []
  | Op.addEndpoint e :: rest => e :: addedEndpoints rest
  | Op.removeEndpoint _ :: rest => addedEndpoints rest

/-- A call of one of the methods of `Container`. -/
inductive Method where
  | ID
  | Endpoints
  | Endpoint (s : Scope)
  | Scopes
  | addEndpoint (e : Vic.Network.Endpoint)
  | removeEndpoint (e : Vic.Network.Endpoint)
  | collectSlotNumbers
  | bind (s : Scope)
  | unbind (s : Scope)
deriving DecidableEq, Repr

/-- The state after one method call, its result dropped. -/
def World.call (ops : EndpointOps) (w : World) : Method → World
  | Method.ID => { w with c := w.c.ID.2 }
  | Method.Endpoints => { w with c := w.c.Endpoints.2 }
  | Method.Endpoint s => { w with c := (w.c.Endpoint s).2 }
  | Method.Scopes => { w with c := w.c.Scopes.2 }
  | Method.addEndpoint e => { w with c := w.c.addEndpoint e }
  | Method.removeEndpoint e => { w with c := w.c.removeEndpoint e }
  | Method.collectSlotNumbers => { w with c := w.c.collectSlotNumbers.2 }
  | Method.bind s => (Container.bind ops w s).2
  | Method.unbind s => (Container.unbind ops w s).2

/-- The state after a sequence of method calls, made in order. -/
def World.callAll (ops : EndpointOps) (w : World) : List Method → World
  | [] => w
  | m :: rest => (w.call ops m).callAll ops rest

/-- The caller obligation of `addEndpoint` along a sequence of calls started
in `w`: every `addEndpoint(e)` is made when the container has no endpoint for
`e.Scope()`. -/
def World.obligationMet (ops : EndpointOps) (w : World) : List Method → Bool
  | [] => true
  | Method.addEndpoint e :: rest =>
    (w.c.endpoint e.Scope).isNone && (w.call ops (Method.addEndpoint e)).obligationMet ops rest
  | m :: rest => (w.call ops m).obligationMet ops rest

end Vic.Network

namespace Vic.Backends

/-- One entry of the payload of the port layer's container list: the field
`Status` is a `*string`, nil when `none`. -/
structure ContainerListInfo where
  Status : Option String
deriving DecidableEq, Repr

/-- What the port layer gives `ContainerCount`: `PortLayerClient()` returns
nil (`noClient`), or `GetContainerList` fails with an error of the given text,
or it succeeds with a payload. -/
inductive PortLayer where
  | noClient
  | listError (err : String)
  | listOk (payload : List ContainerListInfo)
deriving DecidableEq, Repr

/-- The value `derr.NewErrorWithStatusCode(fmt.Errorf(message), statusCode)`. -/
structure DockerError where
  message : String
  statusCode : Nat
deriving DecidableEq, Repr

/-- The constant `http.StatusInternalServerError`. -/
def StatusInternalServerError : Nat := 500

/-- The loop of `ContainerCount` over the payload, on the counters `running`
and `stopped`; `none` is the panic of dereferencing a nil `Status`. The
counters are Go `int`s that go up by one per entry of a slice, so they stay
below the length of the slice and never wrap. -/
def countLoop : List ContainerListInfo → Nat × Nat → Option (Nat × Nat)
  | [], acc => some acc
  | t :: rest, (running, stopped) =>
    match t.Status with
    | none => none
    | some status =>
      if status = "Running" then countLoop rest (running + 1, stopped)
      else if status = "Stopped" ∨ status = "Created" then countLoop rest (running, stopped + 1)
      else countLoop rest (running, stopped)

/-- The method `SystemProxy.ContainerCount`: the four results in return
order, or `none` when the call panics. The variable `paused` is declared and
never assigned. -/
def ContainerCount (pl : PortLayer) : Option (Nat × Nat × Nat × Option DockerError) :=
  let paused := 0
  match pl with
  | PortLayer.noClient =>
    some (0, 0, 0,
      some ⟨"ContainerCount failed to create a portlayer client", StatusInternalServerError⟩)
  | PortLayer.listError err =>
    some (0, 0, 0, some ⟨"Failed to get container list: " ++ err, StatusInternalServerError⟩)
  | PortLayer.listOk payload =>
    match countLoop payload (0, 0) with
    | none => none
    | some (running, stopped) => some (running, paused, stopped, none)

/-- The number of entries of a payload whose status is `Running`. -/
def runningEntries (payload : List ContainerListInfo) : Nat :=
  payload.countP (fun t => t.Status = some "Running")

/-- The number of entries of a payload whose status is `Stopped` or
`Created`. -/
def stoppedEntries (payload : List ContainerListInfo) : Nat :=
  payload.countP (fun t => t.Status = some "Stopped" ∨ t.Status = some "Created")

end Vic.Backends

namespace Vic.Network

/-! ## Lemmas about the loops -/

theorem endpointLoop_eq_none_iff (s : Scope) (l : List Endpoint) :
    endpointLoop s l = none ↔ ∀ e ∈ l, e.Scope ≠ s := by
  induction l with
  | nil => simp [endpointLoop]
  | cons x rest ih =>
    by_cases hx : x.Scope = s
    · simp [endpointLoop, hx]
    · simp [endpointLoop, hx, ih]

theorem endpointLoop_append_of_none (s : Scope) (l₁ l₂ : List Endpoint)
    (h : endpointLoop s l₁ = none) : endpointLoop s (l₁ ++ l₂) = endpointLoop s l₂ := by
  induction l₁ with
  | nil => rfl
  | cons x rest ih =>
    by_cases hx : x.Scope = s
    · simp [endpointLoop, hx] at h
    · simp only [endpointLoop, hx, if_false] at h
      simp [endpointLoop, hx, ih h]

theorem endpointLoop_append_of_some (s : Scope) (l₁ l₂ : List Endpoint) (e : Endpoint)
    (h : endpointLoop s l₁ = some e) : endpointLoop s (l₁ ++ l₂) = some e := by
  induction l₁ with
  | nil => simp [endpointLoop] at h
  | cons x rest ih =>
    by_cases hx : x.Scope = s
    · simpa [endpointLoop, hx] using h
    · simp only [endpointLoop, hx, if_false] at h
      simp [endpointLoop, hx, ih h]

theorem endpointLoop_first (s : Scope) (l : List Endpoint) (e : Endpoint)
    (h : endpointLoop s l = some e) :
    ∃ i : Nat, l[i]? = some e ∧ e.Scope = s ∧
      ∀ j : Nat, j < i → ∀ x : Endpoint, l[j]? = some x → x.Scope ≠ s := by
  induction l with
  | nil => simp [endpointLoop] at h
  | cons x rest ih =>
    by_cases hx : x.Scope = s
    · simp only [endpointLoop, hx, if_true, Option.some.injEq] at h
      subst h
      exact ⟨0, by simp, hx, by intro j hj; omega⟩
    · simp only [endpointLoop, hx, if_false] at h
      obtain ⟨i, hi, hs, hlt⟩ := ih h
      refine ⟨i + 1, by simpa using hi, hs, ?_⟩
      intro j hj y hy
      cases j with
      | zero =>
        simp only [List.getElem?_cons_zero, Option.some.injEq] at hy
        subst hy
        exact hx
      | succ k =>
        simp only [List.getElem?_cons_succ] at hy
        exact hlt k (by omega) y hy

theorem copy_makeEndpoints (l : List Endpoint) :
    copy (makeEndpoints l.length) l = l.map some := by
  simp [copy, makeEndpoints]

theorem scopesLoop_fst (l : List Endpoint) :
    ∀ (pre post : List Scope), post.length = l.length →
      (scopesLoop l (pre ++ post, pre.length)).1 = pre ++ l.map Endpoint.Scope := by
  induction l with
  | nil =>
    intro pre post h
    have hp : post = [] := List.length_eq_zero.mp h
    simp [scopesLoop, hp]
  | cons e rest ih =>
    intro pre post h
    cases post with
    | nil => simp at h
    | cons p post2 =>
      have hlen : post2.length = rest.length := by simpa using h
      have hset : (pre ++ p :: post2).set pre.length e.Scope = (pre ++ [e.Scope]) ++ post2 := by
        simp
      have hidx : pre.length + 1 = (pre ++ [e.Scope]).length := by simp
      simp only [scopesLoop]
      rw [hset, hidx, ih (pre ++ [e.Scope]) post2 hlen]
      simp

theorem scopes_eq_map (c : Container) :
    c.Scopes.1 = c.endpoints.map Endpoint.Scope := by
  have h := scopesLoop_fst c.endpoints [] (makeScopes c.endpoints.length)
    (by simp [makeScopes])
  simpa [Container.Scopes] using h

theorem endpoints_eq_map (c : Container) : c.Endpoints.1 = c.endpoints.map some := by
  simp [Container.Endpoints, copy_makeEndpoints]

theorem removeEndpointHelper_cells (e : Endpoint) (l : List Endpoint) :
    (removeEndpointHelper e l).cells = l := by
  induction l with
  | nil => simp [removeEndpointHelper]
  | cons x rest ih =>
    by_cases hx : x = e
    · simp [removeEndpointHelper, hx]
    · simp [removeEndpointHelper, hx, ih]

theorem removeEndpointHelper_cells_length (e : Endpoint) (l : List Endpoint) :
    (removeEndpointHelper e l).cells.length = l.length := by
  rw [removeEndpointHelper_cells]

theorem removeEndpointHelper_absent (e : Endpoint) (l : List Endpoint) (h : e ∉ l) :
    removeEndpointHelper e l = ⟨l, l⟩ := by
  induction l with
  | nil => simp [removeEndpointHelper]
  | cons x rest ih =>
    have hx : x ≠ e := fun hxe => h (by simp [hxe])
    have hr : e ∉ rest := fun hm => h (by simp [hm])
    simp [removeEndpointHelper, hx, ih hr]

theorem removeEndpoint_length (c : Container) (e : Endpoint) :
    (c.removeEndpoint e).endpoints.length = c.endpoints.length := by
  simp [Container.removeEndpoint, removeEndpointHelper_cells_length]

theorem run_length (ops : List Op) :
    ∀ c : Container, (c.run ops).endpoints.length = c.endpoints.length + addCalls ops := by
  induction ops with
  | nil => intro c; simp [Container.run, addCalls]
  | cons op rest ih =>
    intro c
    cases op with
    | addEndpoint e =>
      simp [Container.run, addCalls, ih, Container.step, Container.addEndpoint]
      omega
    | removeEndpoint e =>
      simp [Container.run, addCalls, ih, Container.step, removeEndpoint_length]

theorem mem_keys_setEntry (k : Int) (v : Bool) (l : List (Int × Bool)) (n : Int) :
    n ∈ (setEntry k v l).map Prod.fst ↔ n = k ∨ n ∈ l.map Prod.fst := by
  induction l with
  | nil => simp [setEntry]
  | cons kv rest ih =>
    obtain ⟨k2, v2⟩ := kv
    by_cases hk : k2 = k
    · subst hk
      simp [setEntry]
    · simp only [setEntry, hk, if_false, List.map_cons, List.mem_cons, ih]
      tauto

theorem nodup_keys_setEntry (k : Int) (v : Bool) (l : List (Int × Bool))
    (h : (l.map Prod.fst).Nodup) : ((setEntry k v l).map Prod.fst).Nodup := by
  induction l with
  | nil => simp [setEntry]
  | cons kv rest ih =>
    obtain ⟨k2, v2⟩ := kv
    simp only [List.map_cons, List.nodup_cons] at h
    by_cases hk : k2 = k
    · subst hk
      simpa [setEntry] using h
    · simp only [setEntry, hk, if_false, List.map_cons, List.nodup_cons]
      refine ⟨?_, ih h.2⟩
      intro hm
      rcases (mem_keys_setEntry k v rest k2).mp hm with h1 | h1
      · exact hk h1
      · exact h.1 h1

theorem values_setEntry (k : Int) (l : List (Int × Bool))
    (h : ∀ kv ∈ l, kv.2 = true) : ∀ kv ∈ setEntry k true l, kv.2 = true := by
  induction l with
  | nil => simp [setEntry]
  | cons kv rest ih =>
    obtain ⟨k2, v2⟩ := kv
    have hrest : ∀ kv ∈ rest, kv.2 = true := fun kv hkv => h kv (by simp [hkv])
    by_cases hk : k2 = k
    · subst hk
      intro kv hkv
      simp only [setEntry, if_true, List.mem_cons] at hkv
      rcases hkv with h1 | h1
      · simp [h1]
      · exact hrest kv h1
    · intro kv hkv
      simp only [setEntry, hk, if_false, List.mem_cons] at hkv
      rcases hkv with h1 | h1
      · exact h kv (by simp [h1])
      · exact ih hrest kv h1

theorem mem_keys_slotsLoop (l : List Endpoint) :
    ∀ (m : SlotMap) (n : Int),
      n ∈ (slotsLoop l m).keys ↔ n ∈ m.keys ∨ (0 < n ∧ ∃ e ∈ l, e.pciSlot = n) := by
  induction l with
  | nil => intro m n; simp [slotsLoop]
  | cons x rest ih =>
    intro m n
    by_cases hx : x.pciSlot > 0
    · have h := ih (m.set x.pciSlot true) n
      have hs : n ∈ (m.set x.pciSlot true).keys ↔ n = x.pciSlot ∨ n ∈ m.keys :=
        mem_keys_setEntry _ _ _ n
      simp only [slotsLoop, hx, if_true]
      rw [h, hs]
      simp only [List.mem_cons, exists_eq_or_imp]
      constructor
      · rintro ((h1 | h1) | ⟨h1, h2⟩)
        · exact Or.inr ⟨by omega, Or.inl h1.symm⟩
        · exact Or.inl h1
        · exact Or.inr ⟨h1, Or.inr h2⟩
      · rintro (h1 | ⟨h1, h2 | h2⟩)
        · exact Or.inl (Or.inr h1)
        · exact Or.inl (Or.inl h2.symm)
        · exact Or.inr ⟨h1, h2⟩
    · have h := ih m n
      simp only [slotsLoop, hx, if_false]
      rw [h]
      simp only [List.mem_cons, exists_eq_or_imp]
      constructor
      · rintro (h1 | ⟨h1, h2⟩)
        · exact Or.inl h1
        · exact Or.inr ⟨h1, Or.inr h2⟩
      · rintro (h1 | ⟨h1, h2 | h2⟩)
        · exact Or.inl h1
        · exact absurd (h2 ▸ h1) hx
        · exact Or.inr ⟨h1, h2⟩

theorem nodup_keys_slotsLoop (l : List Endpoint) :
    ∀ m : SlotMap, m.keys.Nodup → (slotsLoop l m).keys.Nodup := by
  induction l with
  | nil => intro m h; simpa [slotsLoop] using h
  | cons x rest ih =>
    intro m h
    by_cases hx : x.pciSlot > 0
    · simp only [slotsLoop, hx, if_true]
      exact ih _ (nodup_keys_setEntry _ _ _ h)
    · simp only [slotsLoop, hx, if_false]
      exact ih _ h

theorem values_slotsLoop (l : List Endpoint) :
    ∀ m : SlotMap, (∀ kv ∈ m.entries, kv.2 = true) →
      ∀ kv ∈ (slotsLoop l m).entries, kv.2 = true := by
  induction l with
  | nil => intro m h; simpa [slotsLoop] using h
  | cons x rest ih =>
    intro m h
    by_cases hx : x.pciSlot > 0
    · simp only [slotsLoop, hx, if_true]
      exact ih _ (values_setEntry _ _ h)
    · simp only [slotsLoop, hx, if_false]
      exact ih _ h

theorem get?_eq_none_iff (m : SlotMap) (n : Int) : m.get? n = none ↔ n ∉ m.keys := by
  unfold SlotMap.get? SlotMap.keys
  rw [Option.map_eq_none', List.find?_eq_none]
  constructor
  · intro h hm
    obtain ⟨kv, hkv, hfst⟩ := List.mem_map.mp hm
    exact h kv hkv (by simp [hfst])
  · intro h kv hkv hb
    exact h (List.mem_map.mpr ⟨kv, hkv, by simpa using hb⟩)

theorem get?_eq_some_true (m : SlotMap) (n : Int) (hv : ∀ kv ∈ m.entries, kv.2 = true)
    (hn : n ∈ m.keys) : m.get? n = some true := by
  cases hf : m.entries.find? (fun kv => kv.1 == n) with
  | none =>
    have hnone : m.get? n = none := by simp [SlotMap.get?, hf]
    exact absurd hn ((get?_eq_none_iff m n).mp hnone)
  | some kv =>
    have hmem := List.mem_of_find?_eq_some hf
    simp [SlotMap.get?, hf, hv kv hmem]

theorem foldl_addEndpoint_endpoints (es : List Endpoint) :
    ∀ c : Container, (es.foldl Container.addEndpoint c).endpoints = c.endpoints ++ es := by
  induction es with
  | nil => intro c; simp
  | cons e rest ih => intro c; simp [ih, Container.addEndpoint]

theorem removeEndpointHelper_cells_subset (e : Endpoint) (l : List Endpoint) :
    ∀ x ∈ (removeEndpointHelper e l).cells, x ∈ l := by
  intro x hx
  rw [removeEndpointHelper_cells] at hx
  exact hx

theorem call_id (ops : EndpointOps) (w : World) (m : Method) :
    (w.call ops m).c.id = w.c.id := by
  cases m with
  | ID => rfl
  | Endpoints => rfl
  | Endpoint s => rfl
  | Scopes => rfl
  | addEndpoint e => rfl
  | removeEndpoint e => rfl
  | collectSlotNumbers => rfl
  | bind s =>
    cases hf : w.c.endpoint s with
    | none => simp [World.call, Container.bind, hf]
    | some e => simp [World.call, Container.bind, hf]
  | unbind s =>
    cases hf : w.c.endpoint s with
    | none => simp [World.call, Container.unbind, hf]
    | some e => simp [World.call, Container.unbind, hf]

theorem callAll_id (ops : EndpointOps) (ms : List Method) :
    ∀ w : World, (w.callAll ops ms).c.id = w.c.id := by
  induction ms with
  | nil => intro w; rfl
  | cons m rest ih => intro w; simp [World.callAll, ih, call_id]

theorem call_endpoints_of_read (ops : EndpointOps) (w : World) (m : Method)
    (hadd : ∀ e, m ≠ Method.addEndpoint e) (hrem : ∀ e, m ≠ Method.removeEndpoint e) :
    (w.call ops m).c = w.c := by
  cases m with
  | ID => rfl
  | Endpoints => rfl
  | Endpoint s => rfl
  | Scopes => rfl
  | addEndpoint e => exact absurd rfl (hadd e)
  | removeEndpoint e => exact absurd rfl (hrem e)
  | collectSlotNumbers => rfl
  | bind s =>
    cases hf : w.c.endpoint s with
    | none => simp [World.call, Container.bind, hf]
    | some e => simp [World.call, Container.bind, hf]
  | unbind s =>
    cases hf : w.c.endpoint s with
    | none => simp [World.call, Container.unbind, hf]
    | some e => simp [World.call, Container.unbind, hf]

theorem call_same_scope_same_endpoint (ops : EndpointOps) (w : World) (m : Method)
    (hinv : ∀ x ∈ w.c.endpoints, ∀ y ∈ w.c.endpoints, x.Scope = y.Scope → x = y)
    (hadd : ∀ e, m = Method.addEndpoint e → w.c.endpoint e.Scope = none) :
    ∀ x ∈ (w.call ops m).c.endpoints, ∀ y ∈ (w.call ops m).c.endpoints,
      x.Scope = y.Scope → x = y := by
  by_cases ha : ∃ e, m = Method.addEndpoint e
  · obtain ⟨e, rfl⟩ := ha
    have hnone := (endpointLoop_eq_none_iff e.Scope w.c.endpoints).mp (hadd e rfl)
    intro x hx y hy hxy
    simp only [World.call, Container.addEndpoint, List.mem_append, List.mem_singleton]
      at hx hy
    rcases hx with hx | hx <;> rcases hy with hy | hy
    · exact hinv x hx y hy hxy
    · subst hy
      exact absurd hxy (hnone x hx)
    · subst hx
      exact absurd hxy.symm (hnone y hy)
    · rw [hx, hy]
  · by_cases hr : ∃ e, m = Method.removeEndpoint e
    · obtain ⟨e, rfl⟩ := hr
      intro x hx y hy hxy
      simp only [World.call, Container.removeEndpoint] at hx hy
      exact hinv x (removeEndpointHelper_cells_subset e _ x hx) y
        (removeEndpointHelper_cells_subset e _ y hy) hxy
    · have hc : (w.call ops m).c = w.c :=
        call_endpoints_of_read ops w m (fun e h => ha ⟨e, h⟩) (fun e h => hr ⟨e, h⟩)
      rw [hc]
      exact hinv

theorem obligationMet_cons (ops : EndpointOps) (w : World) (m : Method) (rest : List Method)
    (h : w.obligationMet ops (m :: rest) = true) :
    (∀ e, m = Method.addEndpoint e → w.c.endpoint e.Scope = none) ∧
    (w.call ops m).obligationMet ops rest = true := by
  cases m with
  | addEndpoint e =>
    simp only [World.obligationMet, Bool.and_eq_true, Option.isNone_iff_eq_none] at h
    refine ⟨?_, h.2⟩
    intro e2 he2
    cases he2
    exact h.1
  | ID => exact ⟨fun e he => Method.noConfusion he, by simpa [World.obligationMet] using h⟩
  | Endpoints => exact ⟨fun e he => Method.noConfusion he, by simpa [World.obligationMet] using h⟩
  | Endpoint s => exact ⟨fun e he => Method.noConfusion he, by simpa [World.obligationMet] using h⟩
  | Scopes => exact ⟨fun e he => Method.noConfusion he, by simpa [World.obligationMet] using h⟩
  | removeEndpoint e2 =>
    exact ⟨fun e he => Method.noConfusion he, by simpa [World.obligationMet] using h⟩
  | collectSlotNumbers =>
    exact ⟨fun e he => Method.noConfusion he, by simpa [World.obligationMet] using h⟩
  | bind s => exact ⟨fun e he => Method.noConfusion he, by simpa [World.obligationMet] using h⟩
  | unbind s => exact ⟨fun e he => Method.noConfusion he, by simpa [World.obligationMet] using h⟩

theorem callAll_same_scope_same_endpoint (ops : EndpointOps) (ms : List Method) :
    ∀ w : World,
      (∀ x ∈ w.c.endpoints, ∀ y ∈ w.c.endpoints, x.Scope = y.Scope → x = y) →
      w.obligationMet ops ms = true →
      ∀ x ∈ (w.callAll ops ms).c.endpoints, ∀ y ∈ (w.callAll ops ms).c.endpoints,
        x.Scope = y.Scope → x = y := by
  induction ms with
  | nil => intro w hinv _; exact hinv
  | cons m rest ih =>
    intro w hinv hob
    obtain ⟨hadd, hrest⟩ := obligationMet_cons ops w m rest hob
    exact ih (w.call ops m) (call_same_scope_same_endpoint ops w m hinv hadd) hrest

/-! ## bind and unbind without an endpoint for the scope -/

/-- C1: when no endpoint of the container has scope `s` (as in an empty
container), `bind(s)` and `unbind(s)` both return `ResourceNotFoundError`,
and each leaves the state as it was: no call is made on any endpoint and the
endpoint collection is unchanged. -/
theorem bind_unbind_not_found (ops : EndpointOps) (w : World) (s : Scope)
    (h : ∀ e ∈ w.c.endpoints, e.Scope ≠ s) :
    (Container.bind ops w s).1 = some Err.ResourceNotFoundError ∧
    (Container.unbind ops w s).1 = some Err.ResourceNotFoundError ∧
    (Container.bind ops w s).2.calls = w.calls ∧
    (Container.unbind ops w s).2.calls = w.calls ∧
    (Container.bind ops w s).2.c = w.c ∧
    (Container.unbind ops w s).2.c = w.c := by
  have hn : w.c.endpoint s = none := (endpointLoop_eq_none_iff s w.c.endpoints).mpr h
  simp [Container.bind, Container.unbind, hn]

/-- C1 at the empty container `c1` and scope 1, with endpoints that never
fail. -/
theorem bind_unbind_not_found_witness :
    (∀ e ∈ (World.mk (Container.fresh "c1") []).c.endpoints, e.Scope ≠ Scope.mk 1) ∧
    ((Container.bind ⟨fun _ _ _ => none, fun _ _ _ => none⟩
        (World.mk (Container.fresh "c1") []) (Scope.mk 1)).1 = some Err.ResourceNotFoundError ∧
     (Container.unbind ⟨fun _ _ _ => none, fun _ _ _ => none⟩
        (World.mk (Container.fresh "c1") []) (Scope.mk 1)).1 = some Err.ResourceNotFoundError ∧
     (Container.bind ⟨fun _ _ _ => none, fun _ _ _ => none⟩
        (World.mk (Container.fresh "c1") []) (Scope.mk 1)).2.calls = [] ∧
     (Container.unbind ⟨fun _ _ _ => none, fun _ _ _ => none⟩
        (World.mk (Container.fresh "c1") []) (Scope.mk 1)).2.calls = [] ∧
     (Container.bind ⟨fun _ _ _ => none, fun _ _ _ => none⟩
        (World.mk (Container.fresh "c1") []) (Scope.mk 1)).2.c = Container.fresh "c1" ∧
     (Container.unbind ⟨fun _ _ _ => none, fun _ _ _ => none⟩
        (World.mk (Container.fresh "c1") []) (Scope.mk 1)).2.c = Container.fresh "c1") :=
  ⟨by simp [Container.fresh],
   bind_unbind_not_found ⟨fun _ _ _ => none, fun _ _ _ => none⟩
     (World.mk (Container.fresh "c1") []) (Scope.mk 1) (by simp [Container.fresh])⟩

/-! ## The length of the collection under adds and removes -/

/-- C2, the code at a failing input: on the fresh container `c1`, after
`addEndpoint(e)` then `removeEndpoint(e)` the call `Endpoints()` still returns
one element, `e`, although the sequence has one `addEndpoint` call and one
`removeEndpoint` call whose argument was present, so that the claimed length
is `1 - 1 = 0`. -/
theorem add_then_remove_keeps_one :
    (((Container.fresh "c1").run
        [Op.addEndpoint ⟨1, ⟨10⟩, 0⟩, Op.removeEndpoint ⟨1, ⟨10⟩, 0⟩]).Endpoints.1
      = [some ⟨1, ⟨10⟩, 0⟩]) ∧
    (((Container.fresh "c1").run
        [Op.addEndpoint ⟨1, ⟨10⟩, 0⟩, Op.removeEndpoint ⟨1, ⟨10⟩, 0⟩]).Endpoints.1.length
      = 1) ∧
    addCalls [Op.addEndpoint ⟨1, ⟨10⟩, 0⟩, Op.removeEndpoint ⟨1, ⟨10⟩, 0⟩] = 1 ∧
    presentRemoveCalls (Container.fresh "c1")
      [Op.addEndpoint ⟨1, ⟨10⟩, 0⟩, Op.removeEndpoint ⟨1, ⟨10⟩, 0⟩] = 1 ∧
    (addedEndpoints [Op.addEndpoint ⟨1, ⟨10⟩, 0⟩, Op.removeEndpoint ⟨1, ⟨10⟩, 0⟩]).Nodup := by
  decide

/-! ## Removing an endpoint that is present -/

/-- C3, the code at a failing input: the container `c1` holds the single
endpoint `e`; after `removeEndpoint(e)` the call `Endpoints()` still returns
`[e]` and `Endpoint(e.Scope())` still returns `e`, where the claim says the
collection is left with the other endpoints, that is, empty. -/
theorem removeEndpoint_present_stays :
    ((Container.mk "c1" [⟨1, ⟨10⟩, 0⟩]).removeEndpoint ⟨1, ⟨10⟩, 0⟩).Endpoints.1
      = [some ⟨1, ⟨10⟩, 0⟩] ∧
    (((Container.mk "c1" [⟨1, ⟨10⟩, 0⟩]).removeEndpoint ⟨1, ⟨10⟩, 0⟩).Endpoint
        (Endpoint.Scope ⟨1, ⟨10⟩, 0⟩)).1 = some ⟨1, ⟨10⟩, 0⟩ ∧
    (removeEndpointHelper ⟨1, ⟨10⟩, 0⟩ [⟨1, ⟨10⟩, 0⟩]).ret = [] := by
  decide

/-! ## Adding an endpoint for a scope not yet attached -/

/-- C4: when the container has no endpoint for scope `s` and `e.Scope() == s`,
after `addEndpoint(e)` the call `Endpoint(s)` returns `e` and `s` occurs
exactly once in `Scopes()`. -/
theorem addEndpoint_lookup_and_scopes (c : Container) (e : Endpoint) (s : Scope)
    (hc : ∀ x ∈ c.endpoints, x.Scope ≠ s) (he : e.Scope = s) :
    ((c.addEndpoint e).Endpoint s).1 = some e ∧
    ((c.addEndpoint e).Scopes.1).count s = 1 := by
  have hn : endpointLoop s c.endpoints = none := (endpointLoop_eq_none_iff s c.endpoints).mpr hc
  constructor
  · simp [Container.Endpoint, Container.endpoint, Container.addEndpoint,
      endpointLoop_append_of_none s c.endpoints [e] hn, endpointLoop, he]
  · rw [scopes_eq_map]
    have h0 : (c.endpoints.map Endpoint.Scope).count s = 0 := by
      rw [List.count_eq_zero]
      intro hm
      obtain ⟨x, hx, hxs⟩ := List.mem_map.mp hm
      exact hc x hx hxs
    simp [Container.addEndpoint, List.count_append, h0, he]

/-- C4 at the container `c1` holding an endpoint for scope 10, and a new
endpoint for scope 20. -/
theorem addEndpoint_lookup_and_scopes_witness :
    (∀ x ∈ (Container.mk "c1" [⟨1, ⟨10⟩, 0⟩]).endpoints, x.Scope ≠ Scope.mk 20) ∧
    Endpoint.Scope ⟨2, ⟨20⟩, 0⟩ = Scope.mk 20 ∧
    (((Container.mk "c1" [⟨1, ⟨10⟩, 0⟩]).addEndpoint ⟨2, ⟨20⟩, 0⟩).Endpoint (Scope.mk 20)).1
      = some ⟨2, ⟨20⟩, 0⟩ ∧
    (((Container.mk "c1" [⟨1, ⟨10⟩, 0⟩]).addEndpoint ⟨2, ⟨20⟩, 0⟩).Scopes.1).count (Scope.mk 20)
      = 1 :=
  ⟨by decide, by decide,
   addEndpoint_lookup_and_scopes (Container.mk "c1" [⟨1, ⟨10⟩, 0⟩]) ⟨2, ⟨20⟩, 0⟩ (Scope.mk 20)
     (by decide) (by decide)⟩

/-! ## The slot numbers in use -/

/-- C5: the map returned by `collectSlotNumbers()` has as keys exactly the
`pciSlot` values greater than zero of the container's endpoints: `n` is a key
iff `n > 0` and some endpoint has `pciSlot == n`; each key occurs once,
however many endpoints share it, and every value is `true`; looking a slot up
gives `true` for a key and nothing otherwise; the container is unchanged.
An endpoint with slot 0 gives the empty map, endpoints with slots 7 and 9 give
the keys 7 and 9. -/
theorem collectSlotNumbers_keys (c : Container) :
    (∀ n : Int, n ∈ c.collectSlotNumbers.1.keys ↔ (0 < n ∧ ∃ e ∈ c.endpoints, e.pciSlot = n)) ∧
    c.collectSlotNumbers.1.keys.Nodup ∧
    (∀ kv ∈ c.collectSlotNumbers.1.entries, kv.2 = true) ∧
    (∀ n : Int, (0 < n ∧ ∃ e ∈ c.endpoints, e.pciSlot = n) →
      c.collectSlotNumbers.1.get? n = some true) ∧
    (∀ n : Int, ¬ (0 < n ∧ ∃ e ∈ c.endpoints, e.pciSlot = n) →
      c.collectSlotNumbers.1.get? n = none) ∧
    c.collectSlotNumbers.2 = c ∧
    (Container.mk "c1" [⟨1, ⟨10⟩, 0⟩]).collectSlotNumbers.1.keys = [] ∧
    (Container.mk "c1" [⟨1, ⟨10⟩, 7⟩, ⟨2, ⟨20⟩, 9⟩]).collectSlotNumbers.1.keys = [7, 9] ∧
    (Container.mk "c1" [⟨1, ⟨10⟩, 7⟩, ⟨2, ⟨20⟩, 7⟩]).collectSlotNumbers.1.keys = [7] := by
  have hk : ∀ n : Int, n ∈ c.collectSlotNumbers.1.keys ↔
      (0 < n ∧ ∃ e ∈ c.endpoints, e.pciSlot = n) := by
    intro n
    have h := mem_keys_slotsLoop c.endpoints SlotMap.make n
    simpa [Container.collectSlotNumbers, SlotMap.make, SlotMap.keys] using h
  have hv : ∀ kv ∈ c.collectSlotNumbers.1.entries, kv.2 = true :=
    values_slotsLoop c.endpoints SlotMap.make (by simp [SlotMap.make])
  refine ⟨hk, ?_, hv, ?_, ?_, rfl, by decide, by decide, by decide⟩
  · exact nodup_keys_slotsLoop c.endpoints SlotMap.make (by simp [SlotMap.make, SlotMap.keys])
  · intro n hn
    exact get?_eq_some_true _ n hv ((hk n).mpr hn)
  · intro n hn
    exact (get?_eq_none_iff _ n).mpr (fun hm => hn ((hk n).mp hm))

/-! ## Removing an endpoint that is absent -/

/-- C6: when the reference `e` does not occur in the container's collection,
`removeEndpoint(e)` leaves the container as it was (same elements, same order,
same length; the method has no result, so no error), the slice the helper
returns is the collection too, and a second `removeEndpoint(e)` changes
nothing either. -/
theorem removeEndpoint_absent_unchanged (c : Container) (e : Endpoint)
    (h : e ∉ c.endpoints) :
    c.removeEndpoint e = c ∧
    (c.removeEndpoint e).Endpoints.1 = c.Endpoints.1 ∧
    (removeEndpointHelper e c.endpoints).ret = c.endpoints ∧
    (c.removeEndpoint e).removeEndpoint e = c := by
  have h1 : c.removeEndpoint e = c := by
    simp [Container.removeEndpoint, removeEndpointHelper_absent e c.endpoints h]
  refine ⟨h1, by rw [h1], by rw [removeEndpointHelper_absent e c.endpoints h], ?_⟩
  rw [h1, h1]

/-- C6 at the container `c1` holding endpoints 1 and 2, and the absent
endpoint 3. -/
theorem removeEndpoint_absent_unchanged_witness :
    (⟨3, ⟨30⟩, 0⟩ : Endpoint) ∉ (Container.mk "c1" [⟨1, ⟨10⟩, 7⟩, ⟨2, ⟨20⟩, 9⟩]).endpoints ∧
    ((Container.mk "c1" [⟨1, ⟨10⟩, 7⟩, ⟨2, ⟨20⟩, 9⟩]).removeEndpoint ⟨3, ⟨30⟩, 0⟩
      = Container.mk "c1" [⟨1, ⟨10⟩, 7⟩, ⟨2, ⟨20⟩, 9⟩] ∧
     ((Container.mk "c1" [⟨1, ⟨10⟩, 7⟩, ⟨2, ⟨20⟩, 9⟩]).removeEndpoint ⟨3, ⟨30⟩, 0⟩).Endpoints.1
      = (Container.mk "c1" [⟨1, ⟨10⟩, 7⟩, ⟨2, ⟨20⟩, 9⟩]).Endpoints.1 ∧
     (removeEndpointHelper ⟨3, ⟨30⟩, 0⟩
        (Container.mk "c1" [⟨1, ⟨10⟩, 7⟩, ⟨2, ⟨20⟩, 9⟩]).endpoints).ret
      = (Container.mk "c1" [⟨1, ⟨10⟩, 7⟩, ⟨2, ⟨20⟩, 9⟩]).endpoints ∧
     ((Container.mk "c1" [⟨1, ⟨10⟩, 7⟩, ⟨2, ⟨20⟩, 9⟩]).removeEndpoint
        ⟨3, ⟨30⟩, 0⟩).removeEndpoint ⟨3, ⟨30⟩, 0⟩
      = Container.mk "c1" [⟨1, ⟨10⟩, 7⟩, ⟨2, ⟨20⟩, 9⟩]) :=
  ⟨by decide,
   removeEndpoint_absent_unchanged (Container.mk "c1" [⟨1, ⟨10⟩, 7⟩, ⟨2, ⟨20⟩, 9⟩])
     ⟨3, ⟨30⟩, 0⟩ (by decide)⟩

/-! ## bind and unbind with an endpoint for the scope -/

/-- C7: when the container has an endpoint for scope `s`, with `e` the
endpoint `Endpoint(s)` returns, `bind(s)` returns exactly what `e.bind(s)`
reports in the current state, nil or error, and makes that one call on `e` and
no other call; `unbind(s)` likewise with `e.unbind(s)`. The container itself
is unchanged. -/
theorem bind_unbind_delegate (ops : EndpointOps) (w : World) (s : Scope)
    (h : ∃ x ∈ w.c.endpoints, x.Scope = s) :
    ∃ e : Endpoint, (w.c.Endpoint s).1 = some e ∧
      Container.bind ops w s
        = (ops.bind w.calls e s, World.mk w.c (w.calls ++ [Call.bind e s])) ∧
      Container.unbind ops w s
        = (ops.unbind w.calls e s, World.mk w.c (w.calls ++ [Call.unbind e s])) := by
  cases hf : w.c.endpoint s with
  | none =>
    obtain ⟨x, hx, hxs⟩ := h
    exact absurd hxs ((endpointLoop_eq_none_iff s w.c.endpoints).mp hf x hx)
  | some e =>
    exact ⟨e, by simp [Container.Endpoint, hf], by simp [Container.bind, hf],
      by simp [Container.unbind, hf]⟩

/-- C7 at the container `c1` holding endpoints for scopes 10 and 20, asked for
scope 20, with endpoints whose `bind` fails with error 5 and whose `unbind`
succeeds. -/
theorem bind_unbind_delegate_witness :
    (∃ x ∈ (World.mk (Container.mk "c1" [⟨1, ⟨10⟩, 7⟩, ⟨2, ⟨20⟩, 9⟩]) []).c.endpoints,
      x.Scope = Scope.mk 20) ∧
    ∃ e : Endpoint,
      ((World.mk (Container.mk "c1" [⟨1, ⟨10⟩, 7⟩, ⟨2, ⟨20⟩, 9⟩]) []).c.Endpoint
        (Scope.mk 20)).1 = some e ∧
      Container.bind ⟨fun _ _ _ => some (Err.other 5), fun _ _ _ => none⟩
          (World.mk (Container.mk "c1" [⟨1, ⟨10⟩, 7⟩, ⟨2, ⟨20⟩, 9⟩]) []) (Scope.mk 20)
        = (some (Err.other 5),
            World.mk (Container.mk "c1" [⟨1, ⟨10⟩, 7⟩, ⟨2, ⟨20⟩, 9⟩])
              ([] ++ [Call.bind e (Scope.mk 20)])) ∧
      Container.unbind ⟨fun _ _ _ => some (Err.other 5), fun _ _ _ => none⟩
          (World.mk (Container.mk "c1" [⟨1, ⟨10⟩, 7⟩, ⟨2, ⟨20⟩, 9⟩]) []) (Scope.mk 20)
        = (none,
            World.mk (Container.mk "c1" [⟨1, ⟨10⟩, 7⟩, ⟨2, ⟨20⟩, 9⟩])
              ([] ++ [Call.unbind e (Scope.mk 20)])) :=
  ⟨⟨⟨2, ⟨20⟩, 9⟩, by decide, by decide⟩,
   bind_unbind_delegate ⟨fun _ _ _ => some (Err.other 5), fun _ _ _ => none⟩
     (World.mk (Container.mk "c1" [⟨1, ⟨10⟩, 7⟩, ⟨2, ⟨20⟩, 9⟩]) []) (Scope.mk 20)
     ⟨⟨2, ⟨20⟩, 9⟩, by decide, by decide⟩⟩

/-! ## Scopes, Endpoint and Endpoints -/

/-- C8: `Scopes()` is the endpoint collection mapped through `Scope()`, in
order: it has the length of `Endpoints()`, and at every index `i` below that
length `Endpoints()[i]` is a non-nil endpoint `e` and `Scopes()[i]` is
`e.Scope()`. The container is unchanged. -/
theorem scopes_match_endpoints (c : Container) :
    c.Scopes.1 = c.endpoints.map Endpoint.Scope ∧
    c.Scopes.1.length = c.Endpoints.1.length ∧
    (∀ i : Nat, i < c.Endpoints.1.length →
      ∃ e : Endpoint, c.Endpoints.1[i]? = some (some e) ∧ c.Scopes.1[i]? = some e.Scope) ∧
    c.Scopes.2 = c := by
  refine ⟨scopes_eq_map c, ?_, ?_, rfl⟩
  · rw [scopes_eq_map, endpoints_eq_map]
    simp
  · intro i hi
    rw [endpoints_eq_map] at hi ⊢
    rw [scopes_eq_map]
    have hi2 : i < c.endpoints.length := by simpa using hi
    exact ⟨c.endpoints[i], by simp [List.getElem?_eq_getElem hi2],
      by simp [List.getElem?_eq_getElem hi2]⟩

/-- C9: `Endpoint(s)` is a linear search: it returns nil iff no endpoint of
the collection has scope `s`; an endpoint it returns has scope `s` and sits in
the collection at an index before which no endpoint has scope `s`; and when
some endpoint has scope `s` it does return one. The container is unchanged. -/
theorem endpoint_linear_search (c : Container) (s : Scope) :
    ((c.Endpoint s).1 = none ↔ ∀ e ∈ c.endpoints, e.Scope ≠ s) ∧
    (∀ e : Endpoint, (c.Endpoint s).1 = some e →
      e.Scope = s ∧ e ∈ c.endpoints ∧
      ∃ i : Nat, c.endpoints[i]? = some e ∧
        ∀ j : Nat, j < i → ∀ x : Endpoint, c.endpoints[j]? = some x → x.Scope ≠ s) ∧
    ((∃ x ∈ c.endpoints, x.Scope = s) → ∃ e : Endpoint, (c.Endpoint s).1 = some e) ∧
    (c.Endpoint s).2 = c := by
  refine ⟨endpointLoop_eq_none_iff s c.endpoints, ?_, ?_, rfl⟩
  · intro e he
    obtain ⟨i, hi, hs, hlt⟩ := endpointLoop_first s c.endpoints e he
    exact ⟨hs, List.getElem?_mem hi, i, hi, hlt⟩
  · rintro ⟨x, hx, hxs⟩
    cases hf : (c.Endpoint s).1 with
    | none => exact absurd hxs ((endpointLoop_eq_none_iff s c.endpoints).mp hf x hx)
    | some e => exact ⟨e, rfl⟩

/-- C10: `Endpoints()` returns the container's collection, element by element
and in order, each element a non-nil pointer, and leaves the container
unchanged; after `addEndpoint(e1)`, ..., `addEndpoint(en)` on a container
without endpoints it returns `[e1, ..., en]`. -/
theorem endpoints_snapshot (c : Container) :
    c.Endpoints.1 = c.endpoints.map some ∧
    c.Endpoints.2 = c ∧
    (∀ (id : ID) (es : List Endpoint),
      (es.foldl Container.addEndpoint (Container.fresh id)).Endpoints.1 = es.map some) := by
  refine ⟨endpoints_eq_map c, rfl, ?_⟩
  intro id es
  rw [endpoints_eq_map, foldl_addEndpoint_endpoints]
  simp [Container.fresh]

/-! ## Scope uniqueness -/

theorem call_scopes_nodup (ops : EndpointOps) (w : World) (m : Method)
    (hinv : (w.c.endpoints.map Endpoint.Scope).Nodup)
    (hadd : ∀ e, m = Method.addEndpoint e → w.c.endpoint e.Scope = none) :
    ((w.call ops m).c.endpoints.map Endpoint.Scope).Nodup := by
  by_cases ha : ∃ e, m = Method.addEndpoint e
  · obtain ⟨e, rfl⟩ := ha
    have hnone := (endpointLoop_eq_none_iff e.Scope w.c.endpoints).mp (hadd e rfl)
    have hnot : e.Scope ∉ w.c.endpoints.map Endpoint.Scope := by
      intro hm
      obtain ⟨x, hx, hxs⟩ := List.mem_map.mp hm
      exact hnone x hx hxs
    simp only [World.call, Container.addEndpoint, List.map_append, List.map_cons,
      List.map_nil]
    refine List.Nodup.append hinv (List.nodup_singleton _) ?_
    intro s hs hs2
    rw [List.mem_singleton] at hs2
    exact hnot (hs2 ▸ hs)
  · by_cases hr : ∃ e, m = Method.removeEndpoint e
    · obtain ⟨e, rfl⟩ := hr
      simp only [World.call, Container.removeEndpoint, removeEndpointHelper_cells]
      exact hinv
    · have hc : (w.call ops m).c = w.c :=
        call_endpoints_of_read ops w m (fun e h => ha ⟨e, h⟩) (fun e h => hr ⟨e, h⟩)
      rw [hc]
      exact hinv

theorem callAll_scopes_nodup (ops : EndpointOps) (ms : List Method) :
    ∀ w : World, (w.c.endpoints.map Endpoint.Scope).Nodup →
      w.obligationMet ops ms = true →
      ((w.callAll ops ms).c.endpoints.map Endpoint.Scope).Nodup := by
  induction ms with
  | nil => intro w hinv _; exact hinv
  | cons m rest ih =>
    intro w hinv hob
    obtain ⟨hadd, hrest⟩ := obligationMet_cons ops w m rest hob
    exact ih (w.call ops m) (call_scopes_nodup ops w m hinv hadd) hrest

/-- C11: starting from a container without endpoints, after every sequence of
calls of `ID`, `Endpoints`, `Endpoint`, `Scopes`, `addEndpoint`,
`removeEndpoint`, `collectSlotNumbers`, `bind` and `unbind` in which each
`addEndpoint(e)` is made when the container has no endpoint for `e.Scope()`,
the collection holds at most one endpoint per scope: no scope occurs twice in
`Scopes()`, every scope occurs there at most once, and two endpoints of the
collection with the same scope are the same endpoint. -/
theorem scope_uniqueness_invariant (ops : EndpointOps) (id : ID) (calls : List Call)
    (ms : List Method)
    (h : World.obligationMet ops (World.mk (Container.fresh id) calls) ms = true) :
    (World.callAll ops (World.mk (Container.fresh id) calls) ms).c.Scopes.1.Nodup ∧
    (∀ s : Scope,
      ((World.callAll ops (World.mk (Container.fresh id) calls) ms).c.Scopes.1).count s ≤ 1) ∧
    (∀ x ∈ (World.callAll ops (World.mk (Container.fresh id) calls) ms).c.endpoints,
      ∀ y ∈ (World.callAll ops (World.mk (Container.fresh id) calls) ms).c.endpoints,
        x.Scope = y.Scope → x = y) := by
  have hn : (World.callAll ops (World.mk (Container.fresh id) calls) ms).c.Scopes.1.Nodup := by
    rw [scopes_eq_map]
    exact callAll_scopes_nodup ops ms (World.mk (Container.fresh id) calls)
      (by simp [Container.fresh]) h
  refine ⟨hn, ?_, ?_⟩
  · intro s
    exact List.nodup_iff_count_le_one.mp hn s
  · exact callAll_same_scope_same_endpoint ops ms (World.mk (Container.fresh id) calls)
      (by simp [Container.fresh]) h

/-- C11 at the fresh container `c1` and the calls `addEndpoint(a)` for scope
10, `addEndpoint(b)` for scope 20, `Scopes()`, `bind` of scope 20,
`removeEndpoint(a)` and `Endpoints()`, with endpoints that never fail. -/
theorem scope_uniqueness_invariant_witness :
    World.obligationMet ⟨fun _ _ _ => none, fun _ _ _ => none⟩
      (World.mk (Container.fresh "c1") [])
      [Method.addEndpoint ⟨1, ⟨10⟩, 0⟩, Method.addEndpoint ⟨2, ⟨20⟩, 0⟩, Method.Scopes,
        Method.bind ⟨20⟩, Method.removeEndpoint ⟨1, ⟨10⟩, 0⟩, Method.Endpoints] = true ∧
    ((World.callAll ⟨fun _ _ _ => none, fun _ _ _ => none⟩
      (World.mk (Container.fresh "c1") [])
      [Method.addEndpoint ⟨1, ⟨10⟩, 0⟩, Method.addEndpoint ⟨2, ⟨20⟩, 0⟩, Method.Scopes,
        Method.bind ⟨20⟩, Method.removeEndpoint ⟨1, ⟨10⟩, 0⟩,
        Method.Endpoints]).c.Scopes.1.Nodup ∧
     (∀ s : Scope,
      ((World.callAll ⟨fun _ _ _ => none, fun _ _ _ => none⟩
        (World.mk (Container.fresh "c1") [])
        [Method.addEndpoint ⟨1, ⟨10⟩, 0⟩, Method.addEndpoint ⟨2, ⟨20⟩, 0⟩, Method.Scopes,
          Method.bind ⟨20⟩, Method.removeEndpoint ⟨1, ⟨10⟩, 0⟩,
          Method.Endpoints]).c.Scopes.1).count s ≤ 1) ∧
     (∀ x ∈ (World.callAll ⟨fun _ _ _ => none, fun _ _ _ => none⟩
        (World.mk (Container.fresh "c1") [])
        [Method.addEndpoint ⟨1, ⟨10⟩, 0⟩, Method.addEndpoint ⟨2, ⟨20⟩, 0⟩, Method.Scopes,
          Method.bind ⟨20⟩, Method.removeEndpoint ⟨1, ⟨10⟩, 0⟩,
          Method.Endpoints]).c.endpoints,
      ∀ y ∈ (World.callAll ⟨fun _ _ _ => none, fun _ _ _ => none⟩
        (World.mk (Container.fresh "c1") [])
        [Method.addEndpoint ⟨1, ⟨10⟩, 0⟩, Method.addEndpoint ⟨2, ⟨20⟩, 0⟩, Method.Scopes,
          Method.bind ⟨20⟩, Method.removeEndpoint ⟨1, ⟨10⟩, 0⟩,
          Method.Endpoints]).c.endpoints,
        x.Scope = y.Scope → x = y)) :=
  ⟨by decide,
   scope_uniqueness_invariant ⟨fun _ _ _ => none, fun _ _ _ => none⟩ "c1" []
     [Method.addEndpoint ⟨1, ⟨10⟩, 0⟩, Method.addEndpoint ⟨2, ⟨20⟩, 0⟩, Method.Scopes,
       Method.bind ⟨20⟩, Method.removeEndpoint ⟨1, ⟨10⟩, 0⟩, Method.Endpoints]
     (by decide)⟩

/-! ## The identifier -/

/-- C12: `ID()` returns the id the container was built with and changes
nothing; no method call changes the id, so after any sequence of calls of
`ID`, `Endpoints`, `Endpoint`, `Scopes`, `addEndpoint`, `removeEndpoint`,
`collectSlotNumbers`, `bind` and `unbind`, `ID()` still returns that id. -/
theorem id_immutable (ops : EndpointOps) (id : ID) (eps : List Endpoint) (calls : List Call) :
    (Container.mk id eps).ID.1 = id ∧
    (Container.fresh id).ID.1 = id ∧
    (Container.mk id eps).ID.2 = Container.mk id eps ∧
    (∀ m : Method, (World.call ops (World.mk (Container.mk id eps) calls) m).c.ID.1 = id) ∧
    (∀ ms : List Method,
      (World.callAll ops (World.mk (Container.mk id eps) calls) ms).c.ID.1 = id) := by
  refine ⟨rfl, rfl, rfl, ?_, ?_⟩
  · intro m
    exact call_id ops (World.mk (Container.mk id eps) calls) m
  · intro ms
    exact callAll_id ops ms (World.mk (Container.mk id eps) calls)

/-! ## addEndpoint without a duplicate check -/

/-- C14: `addEndpoint(e)` never checks for duplicates: it always yields the
previous collection with `e` appended as last element, one longer, the earlier
elements and the id as they were. When an endpoint with the scope of `e` (or
`e` itself) is already present, `Endpoint(e.Scope())` keeps returning the
endpoint it returned before and the scope occurs at least twice in `Scopes()`.
Adding the endpoint `a` to the container holding `[a]` gives `[a, a]`. -/
theorem addEndpoint_appends_unchecked (c : Container) (e : Endpoint) :
    (c.addEndpoint e).endpoints = c.endpoints ++ [e] ∧
    (c.addEndpoint e).Endpoints.1 = c.Endpoints.1 ++ [some e] ∧
    (c.addEndpoint e).Endpoints.1.length = c.Endpoints.1.length + 1 ∧
    (c.addEndpoint e).id = c.id ∧
    ((∃ x ∈ c.endpoints, x.Scope = e.Scope) →
      (∃ x ∈ c.endpoints, (c.Endpoint e.Scope).1 = some x ∧
        ((c.addEndpoint e).Endpoint e.Scope).1 = some x) ∧
      2 ≤ ((c.addEndpoint e).Scopes.1).count e.Scope) ∧
    ((Container.mk "c1" [⟨1, ⟨10⟩, 0⟩]).addEndpoint ⟨1, ⟨10⟩, 0⟩).Endpoints.1
      = [some ⟨1, ⟨10⟩, 0⟩, some ⟨1, ⟨10⟩, 0⟩] ∧
    ((Container.mk "c1" [⟨1, ⟨10⟩, 0⟩]).addEndpoint ⟨2, ⟨10⟩, 0⟩).Scopes.1
      = [⟨10⟩, ⟨10⟩] ∧
    (((Container.mk "c1" [⟨1, ⟨10⟩, 0⟩]).addEndpoint ⟨2, ⟨10⟩, 0⟩).Endpoint ⟨10⟩).1
      = some ⟨1, ⟨10⟩, 0⟩ := by
  refine ⟨rfl, ?_, ?_, rfl, ?_, by decide, by decide, by decide⟩
  · rw [endpoints_eq_map, endpoints_eq_map]
    simp [Container.addEndpoint]
  · rw [endpoints_eq_map, endpoints_eq_map]
    simp [Container.addEndpoint]
  · rintro ⟨x, hx, hxs⟩
    constructor
    · cases hf : endpointLoop e.Scope c.endpoints with
      | none => exact absurd hxs ((endpointLoop_eq_none_iff e.Scope c.endpoints).mp hf x hx)
      | some y =>
        obtain ⟨i, hi, _, _⟩ := endpointLoop_first e.Scope c.endpoints y hf
        refine ⟨y, List.getElem?_mem hi, hf, ?_⟩
        exact endpointLoop_append_of_some e.Scope c.endpoints [e] y hf
    · rw [scopes_eq_map]
      have h1 : 1 ≤ (c.endpoints.map Endpoint.Scope).count e.Scope :=
        List.one_le_count_iff.mpr (List.mem_map.mpr ⟨x, hx, hxs⟩)
      simp only [Container.addEndpoint, List.map_append, List.map_cons, List.map_nil,
        List.count_append, List.count_singleton_self]
      omega

end Vic.Network

namespace Vic.Backends

/-! ## ContainerCount -/

theorem countLoop_eq (payload : List ContainerListInfo) :
    ∀ running stopped : Nat, (∀ t ∈ payload, t.Status ≠ none) →
      countLoop payload (running, stopped)
        = some (running + runningEntries payload, stopped + stoppedEntries payload) := by
  induction payload with
  | nil => intro running stopped _; simp [countLoop, runningEntries, stoppedEntries]
  | cons t rest ih =>
    intro running stopped h
    have hrest : ∀ t ∈ rest, t.Status ≠ none := fun u hu => h u (List.mem_cons_of_mem _ hu)
    cases hs : t.Status with
    | none => exact absurd hs (h t (List.mem_cons_self _ _))
    | some status =>
      by_cases h1 : status = "Running"
      · subst h1
        simp [countLoop, hs, ih _ _ hrest, runningEntries, stoppedEntries, List.countP_cons]
        omega
      · by_cases h2 : status = "Stopped" ∨ status = "Created"
        · simp [countLoop, hs, h1, h2, ih _ _ hrest, runningEntries, stoppedEntries,
            List.countP_cons]
          omega
        · have h3 : ¬ status = "Stopped" := fun hh => h2 (Or.inl hh)
          have h4 : ¬ status = "Created" := fun hh => h2 (Or.inr hh)
          simp [countLoop, hs, h1, h3, h4, ih _ _ hrest, runningEntries, stoppedEntries,
            List.countP_cons]

theorem countP_add_countP_le (p q : ContainerListInfo → Bool) (l : List ContainerListInfo)
    (h : ∀ t, p t = true → q t = true → False) :
    l.countP p + l.countP q ≤ l.length := by
  induction l with
  | nil => simp
  | cons t rest ih =>
    rw [List.countP_cons, List.countP_cons, List.length_cons]
    by_cases hp : p t = true
    · by_cases hq : q t = true
      · exact absurd hq (fun hq2 => h t hp hq2)
      · rw [if_pos hp, if_neg hq]
        omega
    · by_cases hq : q t = true
      · rw [if_neg hp, if_pos hq]
        omega
      · rw [if_neg hp, if_neg hq]
        omega

theorem running_add_stopped_le (payload : List ContainerListInfo) :
    runningEntries payload + stoppedEntries payload ≤ payload.length := by
  unfold runningEntries stoppedEntries
  apply countP_add_countP_le
  intro t hp hq
  have h1 : t.Status = some "Running" := of_decide_eq_true hp
  have h2 : t.Status = some "Stopped" ∨ t.Status = some "Created" := of_decide_eq_true hq
  rw [h1] at h2
  revert h2
  decide

/-- C15: on a container list returned by the port layer in which every entry
has a non-nil `Status`, `ContainerCount` returns `(running, paused, stopped,
nil)` with `running` the number of entries with status `Running`, `stopped`
the number with status `Stopped` or `Created`, and `paused` 0; entries with
another status are counted nowhere, so the three add up to at most the length
of the list. Without a client, or when the listing fails, it returns
`(0, 0, 0, err)` with `err` a docker error of status code 500. -/
theorem containerCount_counts (payload : List ContainerListInfo)
    (h : ∀ t ∈ payload, t.Status ≠ none) :
    ContainerCount (PortLayer.listOk payload)
      = some (runningEntries payload, 0, stoppedEntries payload, none) ∧
    runningEntries payload + 0 + stoppedEntries payload ≤ payload.length ∧
    ContainerCount PortLayer.noClient
      = some (0, 0, 0, some ⟨"ContainerCount failed to create a portlayer client", 500⟩) ∧
    (∀ err : String, ContainerCount (PortLayer.listError err)
      = some (0, 0, 0, some ⟨"Failed to get container list: " ++ err, 500⟩)) := by
  refine ⟨?_, ?_, rfl, fun _ => rfl⟩
  · have hc := countLoop_eq payload 0 0 h
    simp only [Nat.zero_add] at hc
    simp only [ContainerCount, hc]
  · have := running_add_stopped_le payload
    omega

/-- C15 at a list of five containers: one running, one stopped, two created
and one with the status `Exited`. -/
theorem containerCount_counts_witness :
    (∀ t ∈ ([⟨some "Running"⟩, ⟨some "Stopped"⟩, ⟨some "Created"⟩, ⟨some "Exited"⟩,
        ⟨some "Created"⟩] : List ContainerListInfo), t.Status ≠ none) ∧
    (ContainerCount (PortLayer.listOk [⟨some "Running"⟩, ⟨some "Stopped"⟩, ⟨some "Created"⟩,
        ⟨some "Exited"⟩, ⟨some "Created"⟩]) = some (1, 0, 3, none)) :=
  ⟨by decide,
   (containerCount_counts [⟨some "Running"⟩, ⟨some "Stopped"⟩, ⟨some "Created"⟩,
      ⟨some "Exited"⟩, ⟨some "Created"⟩] (by decide)).1.trans (by decide)⟩

end Vic.Backends
